import Mathlib

/-!
Verification of the changelog Slack bot (`src/check-changelog.js`).

Strings are modelled as `List Char` (one element per UTF-16-ish code unit of the
JS string; the changelog data is plain text, so a character-level model is
faithful).  Each definition below embeds the JS function of the same name.
-/

set_option maxHeartbeats 1000000
set_option linter.unusedVariables false
set_option linter.unnecessarySeqFocus false

abbrev Str := List Char

/-- JS `WhiteSpace`/`LineTerminator` characters recognised by `String.prototype.trim`
(tab, LF, VT, FF, CR, space, NBSP, Ogham space, en-quad .. hair space,
LS, PS, narrow NBSP, math space, ideographic space, BOM). -/
def jsWsChars : Str :=
  [Char.ofNat 9, Char.ofNat 10, Char.ofNat 11, Char.ofNat 12, Char.ofNat 13,
   Char.ofNat 32, Char.ofNat 0xA0, Char.ofNat 0x1680, Char.ofNat 0x2000,
   Char.ofNat 0x2001, Char.ofNat 0x2002, Char.ofNat 0x2003, Char.ofNat 0x2004,
   Char.ofNat 0x2005, Char.ofNat 0x2006, Char.ofNat 0x2007, Char.ofNat 0x2008,
   Char.ofNat 0x2009, Char.ofNat 0x200A, Char.ofNat 0x2028, Char.ofNat 0x2029,
   Char.ofNat 0x202F, Char.ofNat 0x205F, Char.ofNat 0x3000, Char.ofNat 0xFEFF]

def isJsWs (c : Char) : Bool := jsWsChars.contains c

/-- JS `LineTerminator` characters: `^` in a multiline regex matches right after one. -/
def isLineTerm (c : Char) : Bool :=
  c = Char.ofNat 10 || c = Char.ofNat 13 || c = Char.ofNat 0x2028 || c = Char.ofNat 0x2029

/-- Remove the trailing run of JS whitespace (the second half of `String.prototype.trim`). -/
def rtrim (s : Str) : Str := (s.reverse.dropWhile isJsWs).reverse

/-- JS `String.prototype.trim`: drop leading and trailing whitespace. -/
def jsTrim (s : Str) : Str := rtrim (s.dropWhile isJsWs)

/-- Maximal leading run of decimal digits and the rest (regex `\d+`, greedy). -/
def takeDigits : Str → Str × Str
  | [] => ([], [])
  | c :: cs =>
    if c.isDigit then
      let (d, r) := takeDigits cs
      (c :: d, r)
    else ([], c :: cs)

/-- Regex `(\d+\.\d+\.\d+)` at the head of `s`: the captured version string, if any.
Each `\d+` is a maximal digit run (greedy matching; backtracking cannot help because
a shorter run leaves a digit where `\.` is required). -/
def matchTriple (s : Str) : Option Str :=
  let (d1, r1) := takeDigits s
  if d1 = [] then none else
  match r1 with
  | '.' :: r2 =>
    let (d2, r3) := takeDigits r2
    if d2 = [] then none else
    match r3 with
    | '.' :: r4 =>
      let (d3, _) := takeDigits r4
      if d3 = [] then none else some (d1 ++ '.' :: (d2 ++ '.' :: d3))
    | _ => none
  | _ => none

/-- Regex `## \[?(\d+\.\d+\.\d+)\]?` anchored at the head of `s` (the `\]?` after the
capture consumes no information).  If the optional `[` is present but no triple follows,
retrying without consuming the `[` also fails (`[` is not a digit), so no backtracking
case is lost. -/
def matchHeadingAt : Str → Option Str
  | '#' :: '#' :: ' ' :: rest =>
    (match rest with
     | [] => none
     | c :: rest2 => if c = '[' then matchTriple rest2 else matchTriple (c :: rest2))
  | _ => none

/-- The `versionRegex.exec` loop of `parseChangelogEntries`: walk the document once,
attempting the heading pattern at every line start (`^` with the `m` flag), recording
`(capturedVersion, matchIndex)` pairs.  A match span contains no line terminator, so no
line start (hence no further match) can occur inside it; scanning every position is
therefore equivalent to the `lastIndex`-advancing `exec` loop. -/
def scanAux : Str → Nat → Bool → List (Str × Nat)
  | [], _, _ => []
  | c :: cs, i, atStart =>
    match (if atStart then matchHeadingAt (c :: cs) else none) with
    | some v => (v, i) :: scanAux cs (i + 1) (isLineTerm c)
    | none => scanAux cs (i + 1) (isLineTerm c)

def findMatches (content : Str) : List (Str × Nat) := scanAux content 0 true

structure Entry where
  version : Str
  content : Str
deriving DecidableEq, Repr

/-- The `matches.map((m, i) => ...)` step: slice `content` from each match index up to
the next match index (or end of document) and trim the slice.
`content.slice(i, stop)` is `(content.drop i).take (stop - i)`. -/
def sliceEntries (content : Str) : List (Str × Nat) → List Entry
  | [] => []
  | (v, i) :: rest =>
    let stop := match rest with
      | [] => content.length
      | (_, j) :: _ => j
    { version := v, content := jsTrim ((content.drop i).take (stop - i)) } ::
      sliceEntries content rest

/-- `parseChangelogEntries(content)` from `src/check-changelog.js`. -/
def parseChangelogEntries (content : Str) : List Entry :=
  sliceEntries content (findMatches content)

/-- `findNewEntries(currentContent, cachedContent)`.  `cachedContent : Option Str`
models the JS `string | null`; JS `!cachedContent` is true for `null` and for the
empty string, hence the extra `c = []` test. -/
def findNewEntries (currentContent : Str) (cachedContent : Option Str) : List Entry :=
  match cachedContent with
  | none => (parseChangelogEntries currentContent).take 1
  | some c =>
    if c = [] then (parseChangelogEntries currentContent).take 1
    else
      let currentEntries := parseChangelogEntries currentContent
      let cachedVersions := (parseChangelogEntries c).map (fun e => e.version)
      currentEntries.filter (fun e => !(cachedVersions.contains e.version))

/-- `p` is a prefix of `s` (JS `s.startsWith(p)` / regex `^p`). -/
def strStartsWith : Str → Str → Bool
  | _, [] => true
  | [], _ :: _ => false
  | c :: s, d :: p => c == d && strStartsWith s p

/-- JS `content.split('\n')`: the list of `\n`-separated segments (an empty string
yields one empty segment; a trailing `\n` yields a trailing empty segment). -/
def splitOnNl : Str → List Str
  | [] => [[]]
  | c :: rest =>
    if c = '\n' then [] :: splitOnNl rest
    else
      match splitOnNl rest with
      | [] => [[c]]
      | seg :: segs => (c :: seg) :: segs

/-- The six category buckets of `formatSlackBlocks`, in the object-insertion order
(`Object.values` iterates string keys in insertion order). -/
inductive Category
  | added | fixedCat | changedCat | improvedCat | removedCat | other
deriving DecidableEq, Repr

def categoryLabel : Category → Str
  | .added => "Added".data
  | .fixedCat => "Fixed".data
  | .changedCat => "Changed".data
  | .improvedCat => "Improved".data
  | .removedCat => "Removed".data
  | .other => "Updates".data

def categoryOrder : List Category :=
  [.added, .fixedCat, .changedCat, .improvedCat, .removedCat, .other]

/-- The if/else-if classification chain over `lower = item.toLowerCase()` in
`formatSlackBlocks` (first matching branch wins; no match falls into `other`). -/
def classifyItem (item : Str) : Category :=
  let lower := item.map Char.toLower
  if strStartsWith lower ("added".data) || strStartsWith lower ("add ".data) ||
     strStartsWith lower ("new ".data) || strStartsWith lower ("introducing".data) then .added
  else if strStartsWith lower ("fixed".data) || strStartsWith lower ("fix ".data) then .fixedCat
  else if strStartsWith lower ("changed".data) || strStartsWith lower ("change ".data) then .changedCat
  else if strStartsWith lower ("improved".data) || strStartsWith lower ("improve ".data) then .improvedCat
  else if strStartsWith lower ("removed".data) || strStartsWith lower ("remove ".data) then .removedCat
  else .other

/-- The bullet-extraction loop of `formatSlackBlocks`: keep lines whose trimmed form
starts with `-`, strip the marker and trim to get the item string. -/
def bulletItems (lines : List Str) : List Str :=
  lines.filterMap (fun line =>
    let trimmed := jsTrim line
    if strStartsWith trimmed ['-'] then some (jsTrim (trimmed.drop 1)) else none)

/-- Items pushed into category `c`, in line order. -/
def categoryItems (lines : List Str) (c : Category) : List Str :=
  (bulletItems lines).filter (fun item => decide (classifyItem item = c))

def backquote : Char := Char.ofNat 96

/-- Lazy search for the closing `**` of regex `\*\*(.+?)\*\*`: grow the capture
(`acc`, reversed) one character at a time, closing at the first `**`; `.` does not
match any of the four JS line terminators. -/
def matchBoldAux (acc : Str) : Str → Option (Str × Str)
  | [] => none
  | c :: rest =>
    if c = '*' ∧ rest.head? = some '*' then some (acc.reverse, rest.tail)
    else if isLineTerm c then none
    else matchBoldAux (c :: acc) rest

/-- Regex `\*\*(.+?)\*\*` anchored at the head: `(capture, rest-after-match)`.
The lazy `.+?` takes one character, then extends only until `**` follows. -/
def matchBold : Str → Option (Str × Str)
  | '*' :: '*' :: c :: rest => if isLineTerm c then none else matchBoldAux [c] rest
  | _ => none

/-- Regex `\[([^\]]+)\]\(([^)]+)\)` anchored at the head: `(label, url, rest)`.
Each `[^X]+` is a maximal greedy run (shortening it cannot make the following
literal match, so greediness is exact). -/
def matchLink : Str → Option (Str × Str × Str)
  | '[' :: rest =>
    let (label, r1) := rest.span (fun ch => !(ch == ']'))
    (match r1 with
     | ']' :: '(' :: r2 =>
       if label = [] then none
       else
         let (url, r3) := r2.span (fun ch => !(ch == ')'))
         (match r3 with
          | ')' :: r4 => if url = [] then none else some (label, url, r4)
          | _ => none)
     | _ => none)
  | _ => none

/-- Regex `` `([^`]+)` `` anchored at the head: `(capture, rest)`.  The replacement
template reinserts the backquotes, so the overall replace is the identity; it is
still embedded faithfully. -/
def matchCode : Str → Option (Str × Str)
  | c :: rest =>
    if c = backquote then
      let (cap, r1) := rest.span (fun ch => !(ch == backquote))
      (match r1 with
       | c2 :: r2 => if c2 = backquote ∧ cap ≠ [] then some (cap, r2) else none
       | [] => none)
    else none
  | [] => none

theorem length_dropWhile_le (p : Char → Bool) (l : Str) : (l.dropWhile p).length ≤ l.length := by
  induction l with
  | nil => simp
  | cons c cs ih =>
    by_cases h : p c
    · rw [List.dropWhile_cons, if_pos h]
      exact Nat.le_trans ih (by simp)
    · simp [List.dropWhile_cons, h]

theorem matchBoldAux_length (acc t cap r : Str) (h : matchBoldAux acc t = some (cap, r)) :
    r.length < t.length := by
  induction t generalizing acc with
  | nil => simp [matchBoldAux] at h
  | cons c rest ih =>
    rw [matchBoldAux] at h
    split at h
    · cases h
      cases rest <;> simp <;> omega
    · split at h
      · simp at h
      · have := ih _ h
        simp
        omega

theorem matchBold_length (s cap r : Str) (h : matchBold s = some (cap, r)) :
    r.length < s.length := by
  rw [matchBold.eq_def] at h
  split at h
  · rename_i c rest
    split at h
    · simp at h
    · have := matchBoldAux_length [c] rest cap r h
      simp
      omega
  · simp at h

theorem matchLink_length (s label url r : Str) (h : matchLink s = some (label, url, r)) :
    r.length < s.length := by
  rw [matchLink.eq_def] at h
  split at h
  · rename_i rest
    simp only [List.span_eq_take_drop] at h
    split at h
    · split at h
      · simp at h
      · split at h
        · split at h
          · simp at h
          · cases h
            rename_i r1 r2 heq1 hlab r3 hurl heq2
            have h1 := length_dropWhile_le (fun ch => !(ch == ']')) rest
            have h2 := length_dropWhile_le (fun ch => !(ch == ')')) r2
            rw [heq1] at h1
            rw [heq2] at h2
            simp at h1 h2
            simp
            omega
        · simp at h
    · simp at h
  · simp at h

theorem matchCode_length (s cap r : Str) (h : matchCode s = some (cap, r)) :
    r.length < s.length := by
  rw [matchCode.eq_def] at h
  split at h
  · rename_i c rest
    split at h
    · simp only [List.span_eq_take_drop] at h
      split at h
      · split at h
        · cases h
          rename_i hbq r1 c2 r2 heq hcl
          have h1 := length_dropWhile_le (fun ch => !(ch == backquote)) rest
          rw [hcl] at h1
          simp at h1
          simp
          omega
        · simp at h
      · simp at h
    · simp at h
  · simp at h

/-- JS `item.replace(/\*\*(.+?)\*\*/g, '*$1*')`: left-to-right scan, replacing each
match and resuming right after it; replacement text is not rescanned. -/
def replaceBold : Str → Str
  | [] => []
  | c :: rest =>
    match h : matchBold (c :: rest) with
    | some (cap, r) => '*' :: (cap ++ '*' :: replaceBold r)
    | none => c :: replaceBold rest
termination_by s => s.length
decreasing_by
  · simpa using matchBold_length _ _ _ h
  · simp

/-- JS `.replace(/\[([^\]]+)\]\(([^)]+)\)/g, '<$2|$1>')`. -/
def replaceLink : Str → Str
  | [] => []
  | c :: rest =>
    match h : matchLink (c :: rest) with
    | some (label, url, r) => '<' :: (url ++ '|' :: (label ++ '>' :: replaceLink r))
    | none => c :: replaceLink rest
termination_by s => s.length
decreasing_by
  · simpa using matchLink_length _ _ _ _ h
  · simp

/-- JS ``.replace(/`([^`]+)`/g, '`$1`')``. -/
def replaceCode : Str → Str
  | [] => []
  | c :: rest =>
    match h : matchCode (c :: rest) with
    | some (cap, r) => backquote :: (cap ++ backquote :: replaceCode r)
    | none => c :: replaceCode rest
termination_by s => s.length
decreasing_by
  · simpa using matchCode_length _ _ _ h
  · simp

/-- The per-item transform of `formatSlackBlocks`: the three chained `.replace` calls
followed by the `  •  ` bullet-glyph prefix. -/
def formatItem (item : Str) : Str :=
  "  •  ".data ++ replaceCode (replaceLink (replaceBold item))

/-- JS `array.join('\n')`. -/
def joinNl : List Str → Str
  | [] => []
  | [s] => s
  | s :: rest => s ++ '\n' :: joinNl rest

/-- `` `*${cat.label}*\n${formattedItems.join('\n')}` ``. -/
def sectionTextFor (label : Str) (items : List Str) : Str :=
  '*' :: (label ++ '*' :: '\n' :: joinNl (items.map formatItem))

def truncMarker : Str := "\n_...and more_".data

/-- The per-section length cap of `formatSlackBlocks`:
`if (sectionText.length > 2900) sectionText = sectionText.slice(0, 2850) + '\n_...and more_'`. -/
def capSection (s : Str) : Str :=
  if s.length > 2900 then s.take 2850 ++ truncMarker else s

/-- One Slack block, at the granularity the claims need: the variable `text` payloads
are kept, the constant JSON fields (`plain_text`, `emoji: true`, `mrkdwn`, ...) are not.
`sect` stands for the JS `section` block type (`section` is a Lean keyword). -/
inductive Block
  | header (text : Str)
  | sect (text : Str)
  | divider
  | context (text : Str)
deriving DecidableEq, Repr

def headerText (version : Str) : Str :=
  ":cc: Claude Code v".data ++ version ++ " :cc:".data

def introText : Str := "A new version of Claude Code is now available.".data

def footerText : Str :=
  "Full changelog <https://github.com/anthropics/claude-code/blob/main/CHANGELOG.md|here>".data

/-- `formatSlackBlocks(entry)` from `src/check-changelog.js`. -/
def formatSlackBlocks (entry : Entry) : List Block :=
  let lines := (splitOnNl entry.content).filter (fun l => !(strStartsWith l ("## ".data)))
  let catBlocks := categoryOrder.filterMap (fun c =>
    let items := categoryItems lines c
    if items = [] then none
    else some (Block.sect (capSection (sectionTextFor (categoryLabel c) items))))
  [Block.header (headerText entry.version), Block.sect introText, Block.divider]
    ++ catBlocks ++ [Block.divider, Block.context footerText]

/-- The delivery configuration visible to `postToSlack`: whether the module-level
`SLACK_BOT_TOKEN` and `SLACK_CHANNEL_ID` environment values are truthy (`slack` is
non-null exactly when the token is). -/
structure SlackConfig where
  hasToken : Bool
  hasChannel : Bool
deriving DecidableEq, Repr

/-- Observable outcome of one `postToSlack(entry)` call.  `printedThenError`: the
missing-credential path - the formatted payload is `console.log`-printed, then an
error is thrown.  `posted`: `chat.postMessage` succeeded (`result.ok`).  `postFailed`:
the API call reported failure, so an error is thrown. -/
inductive PostOutcome
  | printedThenError (blocks : List Block)
  | posted (blocks : List Block)
  | postFailed (blocks : List Block)
deriving DecidableEq, Repr

/-- An outcome that makes `postToSlack` throw (aborting `main`). -/
def PostOutcome.isError : PostOutcome → Bool
  | .posted _ => false
  | _ => true

/-- `postToSlack(entry)`: formats the blocks first, then either prints-and-throws
(missing credential) or posts.  `apiOk` is the oracle for the external
`slack.chat.postMessage` result. -/
def postToSlack (cfg : SlackConfig) (apiOk : Entry → Bool) (entry : Entry) : PostOutcome :=
  let blocks := formatSlackBlocks entry
  if !(cfg.hasToken && cfg.hasChannel) then .printedThenError blocks
  else if apiOk entry then .posted blocks else .postFailed blocks

/-- The `for (const entry of newEntries.reverse()) await postToSlack(entry)` loop:
posts sequentially, stopping at the first thrown error.  Returns the trace of
attempted posts and whether the loop completed. -/
def runDeliveries (cfg : SlackConfig) (apiOk : Entry → Bool) : List Entry → List (Entry × PostOutcome) × Bool
  | [] => ([], true)
  | e :: rest =>
    let o := postToSlack cfg apiOk e
    if o.isError then ([(e, o)], false)
    else
      let (tr, ok) := runDeliveries cfg apiOk rest
      ((e, o) :: tr, ok)

structure RunResult where
  newEntries : List Entry
  trace : List (Entry × PostOutcome)
  cacheSaved : Option Str
deriving DecidableEq, Repr

/-- `main()` from `src/check-changelog.js`, after the fetch and cache read:
`current` is the fetched document, `cached` the cache content (`none` = absent).
The delivery loop runs over the reversed novel-entry list; an uncaught error skips
the `saveChangelog(currentContent)` call (`cacheSaved = none`), otherwise the cache
is unconditionally overwritten with `current`. -/
def mainRun (current : Str) (cached : Option Str) (cfg : SlackConfig)
    (apiOk : Entry → Bool) : RunResult :=
  let newEntries := findNewEntries current cached
  let (tr, ok) := runDeliveries cfg apiOk newEntries.reverse
  { newEntries := newEntries, trace := tr
    cacheSaved := if ok then some current else none }

example : parseChangelogEntries ("## 1.2.0\n- a\n## 1.1.0\n- b".data) =
    [⟨"1.2.0".data, "## 1.2.0\n- a".data⟩, ⟨"1.1.0".data, "## 1.1.0\n- b".data⟩] := by decide

example : parseChangelogEntries ("no headings here".data) = [] := by decide

example : matchHeadingAt ("## [1.2.3".data) = some ("1.2.3".data) := by decide

example : matchHeadingAt ("## 1.2.3-beta".data) = some ("1.2.3".data) := by decide

example : findNewEntries ("## 1.1.0\n## 1.0.0".data) (some []) =
    [⟨"1.1.0".data, "## 1.1.0".data⟩] := by decide

example : findNewEntries ("## 1.1.0\n## 1.0.0".data) (some ("## 1.0.0".data)) =
    [⟨"1.1.0".data, "## 1.1.0".data⟩] := by decide

/-! ### Shared lemmas about `findNewEntries` -/

theorem findNewEntries_none (d : Str) :
    findNewEntries d none = (parseChangelogEntries d).take 1 := rfl

theorem findNewEntries_some (current c : Str) (h : c ≠ []) :
    findNewEntries current (some c) =
      (parseChangelogEntries current).filter
        (fun e => !(((parseChangelogEntries c).map (fun e => e.version)).contains e.version)) := by
  simp [findNewEntries, h]

theorem findNewEntries_self (d : Str) : findNewEntries d (some d) = [] := by
  by_cases h : d = []
  · subst h; rfl
  · rw [findNewEntries_some d d h]
    rw [List.filter_eq_nil_iff]
    intro e he
    have hm : e.version ∈ (parseChangelogEntries d).map (fun e => e.version) :=
      List.mem_map_of_mem _ he
    simp [List.contains, List.elem_iff, hm]

/-! ### Claims C1, C6, C9 -/

/-- Claim C1, as stated, is false at this input: the cached document is the empty
string, which is non-null, yet `findNewEntries` takes the first-run branch
(JS `!cachedContent` is true for `""`) and returns only the first of the two
current entries instead of the claimed set-exclusion filter (which would keep both). -/
theorem claim_C1_counterexample :
    findNewEntries ("## 1.1.0\n## 1.0.0".data) (some []) ≠
      (parseChangelogEntries ("## 1.1.0\n## 1.0.0".data)).filter
        (fun e => !(((parseChangelogEntries ([] : Str)).map (fun e => e.version)).contains
          e.version)) := by
  decide

/-- Claim C1 (amended: the cached document must also be non-empty): for a non-null,
non-empty cached document, `findNewEntries` returns exactly the entries of
`parseChangelogEntries current` whose version is not among the cached versions, in
current-document order (a sublist of it); and for every document `d`,
`findNewEntries d (some d)` is empty. -/
theorem claim_C1 (current c : Str) (h : c ≠ []) :
    findNewEntries current (some c) =
      (parseChangelogEntries current).filter
        (fun e => !(((parseChangelogEntries c).map (fun e => e.version)).contains e.version))
    ∧ (findNewEntries current (some c)).Sublist (parseChangelogEntries current)
    ∧ (∀ d : Str, findNewEntries d (some d) = []) := by
  refine ⟨findNewEntries_some current c h, ?_, findNewEntries_self⟩
  rw [findNewEntries_some current c h]
  exact List.filter_sublist _

theorem claim_C1_witness :
    ("## 1.0.0".data ≠ ([] : Str))
    ∧ (findNewEntries ("## 1.1.0\n## 1.0.0".data) (some ("## 1.0.0".data)) =
        (parseChangelogEntries ("## 1.1.0\n## 1.0.0".data)).filter
          (fun e => !(((parseChangelogEntries ("## 1.0.0".data)).map
            (fun e => e.version)).contains e.version))) :=
  ⟨by decide, (claim_C1 ("## 1.1.0\n## 1.0.0".data) ("## 1.0.0".data) (by decide)).1⟩

/-- Claim C6: with an absent cache (`null`), `findNewEntries` returns
`parse(current).slice(0, 1)`: at most one entry, the first parsed entry when one
exists, and the empty sequence when `parse(current)` is empty. -/
theorem claim_C6 (d : Str) :
    findNewEntries d none = (parseChangelogEntries d).take 1
    ∧ (findNewEntries d none).length ≤ 1
    ∧ (∀ e rest, parseChangelogEntries d = e :: rest → findNewEntries d none = [e])
    ∧ (parseChangelogEntries d = [] → findNewEntries d none = []) := by
  refine ⟨rfl, ?_, ?_, ?_⟩
  · show ((parseChangelogEntries d).take 1).length ≤ 1
    simp [List.length_take]
  · intro e rest hp
    show (parseChangelogEntries d).take 1 = [e]
    rw [hp]
    rfl
  · intro hp
    show (parseChangelogEntries d).take 1 = []
    rw [hp]
    rfl

theorem claim_C6_witness :
    parseChangelogEntries ("## 1.2.0\n- a".data) =
      [({ version := "1.2.0".data, content := "## 1.2.0\n- a".data } : Entry)]
    ∧ findNewEntries ("## 1.2.0\n- a".data) none =
      [({ version := "1.2.0".data, content := "## 1.2.0\n- a".data } : Entry)] :=
  ⟨by decide, (claim_C6 ("## 1.2.0\n- a".data)).2.2.1
    ({ version := "1.2.0".data, content := "## 1.2.0\n- a".data } : Entry) [] (by decide)⟩

/-- Claim C9, as stated, is false at this input: the cached document is the empty
string - non-null, and the duplicated version `2.0.0` does not occur in it - yet
`findNewEntries` returns only one of the two duplicate `2.0.0` entries of the
current document, because JS `!cachedContent` is true for `""` and diverts the call
to the first-run `slice(0, 1)` branch (the same falsiness quirk as in C1). -/
theorem claim_C9_counterexample :
    ("2.0.0".data ∉ (parseChangelogEntries ([] : Str)).map (fun e => e.version))
    ∧ ((parseChangelogEntries ("## 2.0.0\ndup A\n## 2.0.0\ndup B".data)).filter
        (fun e => e.version == "2.0.0".data)).length = 2
    ∧ ((findNewEntries ("## 2.0.0\ndup A\n## 2.0.0\ndup B".data) (some [])).filter
        (fun e => e.version == "2.0.0".data)).length = 1 :=
  ⟨by decide, by decide, by decide⟩

/-- Claim C9 (amended: the cached document must also be non-empty, as in C1):
version de-duplication is only applied to the cached side.  For a non-null,
non-empty cached document and a version `v` not present in the cache,
`findNewEntries` keeps every current entry whose version is `v` - duplicates
included - exactly as they occur in `parseChangelogEntries current`. -/
theorem claim_C9 (current c v : Str) (hc : c ≠ [])
    (hv : v ∉ (parseChangelogEntries c).map (fun e => e.version)) :
    (findNewEntries current (some c)).filter (fun e => e.version == v)
      = (parseChangelogEntries current).filter (fun e => e.version == v) := by
  rw [findNewEntries_some current c hc]
  rw [List.filter_filter]
  apply List.filter_congr
  intro e he
  by_cases h : e.version = v
  · rw [h]
    have hcont : ((parseChangelogEntries c).map (fun e => e.version)).contains v = false := by
      cases hb : ((parseChangelogEntries c).map (fun e => e.version)).contains v
      · rfl
      · exact absurd (by simpa [List.contains, List.elem_iff] using hb) hv
    rw [hcont]
    simp
  · simp [h]

theorem claim_C9_witness :
    (("## 1.0.0\nold".data ≠ ([] : Str))
      ∧ "2.0.0".data ∉ (parseChangelogEntries ("## 1.0.0\nold".data)).map (fun e => e.version)
      ∧ ((parseChangelogEntries ("## 2.0.0\ndup A\n## 2.0.0\ndup B\n## 1.0.0\nold".data)).filter
          (fun e => e.version == "2.0.0".data)).length = 2)
    ∧ (findNewEntries ("## 2.0.0\ndup A\n## 2.0.0\ndup B\n## 1.0.0\nold".data)
          (some ("## 1.0.0\nold".data))).filter (fun e => e.version == "2.0.0".data)
        = (parseChangelogEntries ("## 2.0.0\ndup A\n## 2.0.0\ndup B\n## 1.0.0\nold".data)).filter
          (fun e => e.version == "2.0.0".data) :=
  ⟨⟨by decide, by decide, by decide⟩,
   claim_C9 ("## 2.0.0\ndup A\n## 2.0.0\ndup B\n## 1.0.0\nold".data)
     ("## 1.0.0\nold".data) ("2.0.0".data) (by decide) (by decide)⟩

/-! ### Claim C7 - category classification -/

/-- Modelled from the spec: the classification rule table of section 4.3 step 3 -
case-insensitive prefixes tested in a fixed priority order, first match wins,
no match falling through to the Updates catch-all. -/
def categoryRules : List (List Str × Category) :=
  [(["added".data, "add ".data, "new ".data, "introducing".data], .added),
   (["fixed".data, "fix ".data], .fixedCat),
   (["changed".data, "change ".data], .changedCat),
   (["improved".data, "improve ".data], .improvedCat),
   (["removed".data, "remove ".data], .removedCat)]

/-- First-match-wins interpretation of an ordered rule table. -/
def firstMatchCategory (lower : Str) : List (List Str × Category) → Category
  | [] => .other
  | (ps, cat) :: rest =>
    if ps.any (fun p => strStartsWith lower p) then cat else firstMatchCategory lower rest

theorem firstMatchCategory_none (lower : Str) :
    ∀ rules, (∀ pr ∈ rules, (pr.1.any (fun p => strStartsWith lower p)) = false) →
      firstMatchCategory lower rules = Category.other := by
  intro rules
  induction rules with
  | nil => intro _; rfl
  | cons pr rest ih =>
    intro h
    obtain ⟨ps, cat⟩ := pr
    rw [firstMatchCategory]
    rw [if_neg (by simp [h (ps, cat) (by simp)])]
    exact ih (fun pr' hm => h pr' (by simp [hm]))

/-- Claim C7: classification is deterministic and total (`classifyItem` is a function
into the six-constructor `Category` type), agrees with the spec's ordered
first-match-wins rule table applied to the lowercased item, and every item matching
no rule lands in the Updates catch-all. -/
theorem claim_C7 (item : Str) :
    classifyItem item = firstMatchCategory (item.map Char.toLower) categoryRules
    ∧ ((∀ pr ∈ categoryRules, ∀ p ∈ pr.1,
          strStartsWith (item.map Char.toLower) p = false) →
        classifyItem item = Category.other) := by
  have hEq : classifyItem item = firstMatchCategory (item.map Char.toLower) categoryRules := by
    simp only [classifyItem, categoryRules, firstMatchCategory, List.any_cons, List.any_nil,
      Bool.or_false, Bool.or_assoc]
  refine ⟨hEq, fun hnone => ?_⟩
  rw [hEq]
  apply firstMatchCategory_none
  intro pr hm
  rw [List.any_eq_false]
  intro p hp
  simp [hnone pr hm p hp]

theorem claim_C7_witness :
    classifyItem ("Support for X".data) =
      firstMatchCategory (("Support for X".data).map Char.toLower) categoryRules
    ∧ classifyItem ("Support for X".data) = Category.other :=
  ⟨(claim_C7 ("Support for X".data)).1, (claim_C7 ("Support for X".data)).2 (by decide)⟩

/-! ### Claim C3 - per-section truncation -/

/-- Claim C3: for every category bucket (label and item list), the assembled section
text `*label*\n<items>` is truncated exactly when it exceeds 2,900 characters, in
which case the result is a prefix of at most 2,851 characters (in fact exactly 2,850)
with the truncation marker appended; otherwise the text is unchanged. -/
theorem claim_C3 (label : Str) (items : List Str) :
    ((sectionTextFor label items).length > 2900 →
      capSection (sectionTextFor label items) =
        (sectionTextFor label items).take 2850 ++ truncMarker
      ∧ ((sectionTextFor label items).take 2850).length ≤ 2851)
    ∧ (¬ (sectionTextFor label items).length > 2900 →
      capSection (sectionTextFor label items) = sectionTextFor label items) := by
  constructor
  · intro h
    constructor
    · simp [capSection, h]
    · simp [List.length_take]
  · intro h
    simp [capSection, h]

def longLabel : Str := List.replicate 2900 'a'

theorem claim_C3_witness :
    (sectionTextFor longLabel []).length > 2900
    ∧ capSection (sectionTextFor longLabel []) =
        (sectionTextFor longLabel []).take 2850 ++ truncMarker := by
  have hlen : (sectionTextFor longLabel []).length > 2900 := by
    rw [sectionTextFor]
    simp only [List.map_nil, joinNl, List.length_cons, List.length_append,
      longLabel, List.length_replicate, List.length_nil]
    omega
  exact ⟨hlen, ((claim_C3 longLabel []).1 hlen).1⟩

/-! ### Claim C5 - behavior with a missing delivery credential -/

def sampleEntry : Entry := { version := "1.0.0".data, content := "## 1.0.0\n- x".data }

/-- Claim C5, as stated, is false: there is no configuration of the recognised
inputs (token/channel presence) under which a missing credential leads to a
successful no-op; every missing-credential configuration makes `postToSlack`
throw after printing. -/
theorem claim_C5_counterexample :
    ¬ ∃ cfg : SlackConfig, (cfg.hasToken = false ∨ cfg.hasChannel = false)
        ∧ (postToSlack cfg (fun _ => true) sampleEntry).isError = false := by
  rintro ⟨⟨t, ch⟩, hmiss, hok⟩
  cases t <;> cases ch <;>
    simp [postToSlack, PostOutcome.isError] at hok hmiss

/-- Claim C5 (amended): when either delivery credential is missing, `postToSlack`
prints the would-be formatted message to the log and then unconditionally throws
(hard failure).  The successful no-op mode described by the spec is not
implemented and is not configurable. -/
theorem claim_C5 (cfg : SlackConfig) (apiOk : Entry → Bool) (e : Entry)
    (h : cfg.hasToken = false ∨ cfg.hasChannel = false) :
    postToSlack cfg apiOk e = PostOutcome.printedThenError (formatSlackBlocks e)
    ∧ (postToSlack cfg apiOk e).isError = true := by
  have hcond : (cfg.hasToken && cfg.hasChannel) = false := by
    rcases h with h | h <;> simp [h]
  constructor
  · simp [postToSlack, hcond]
  · simp [postToSlack, hcond, PostOutcome.isError]

theorem claim_C5_witness :
    ((⟨false, true⟩ : SlackConfig).hasToken = false ∨
      (⟨false, true⟩ : SlackConfig).hasChannel = false)
    ∧ postToSlack ⟨false, true⟩ (fun _ => true) sampleEntry =
        PostOutcome.printedThenError (formatSlackBlocks sampleEntry) :=
  ⟨Or.inl rfl, (claim_C5 ⟨false, true⟩ (fun _ => true) sampleEntry (Or.inl rfl)).1⟩

/-! ### Claims C4 and C8 - orchestrator behavior -/

theorem runDeliveries_all_ok (cfg : SlackConfig) (apiOk : Entry → Bool) (es : List Entry)
    (h : ∀ e ∈ es, (postToSlack cfg apiOk e).isError = false) :
    runDeliveries cfg apiOk es = (es.map (fun e => (e, postToSlack cfg apiOk e)), true) := by
  induction es with
  | nil => rfl
  | cons e rest ih =>
    have he := h e (by simp)
    have ihr := ih (fun x hx => h x (by simp [hx]))
    simp [runDeliveries, he, ihr]

theorem runDeliveries_abort (cfg : SlackConfig) (apiOk : Entry → Bool)
    (pre : List Entry) (fail : Entry) (post : List Entry)
    (hpre : ∀ e ∈ pre, (postToSlack cfg apiOk e).isError = false)
    (hfail : (postToSlack cfg apiOk fail).isError = true) :
    runDeliveries cfg apiOk (pre ++ fail :: post) =
      (pre.map (fun e => (e, postToSlack cfg apiOk e)) ++
        [(fail, postToSlack cfg apiOk fail)], false) := by
  induction pre with
  | nil => simp [runDeliveries, hfail]
  | cons e rest ih =>
    have he := hpre e (by simp)
    have ihr := ih (fun x hx => hpre x (by simp [hx]))
    simp [runDeliveries, he, ihr]

/-- Claim C4: if every delivery succeeds, the run ends by overwriting the cache with
the just-fetched document - also when there are no novel entries at all; but if the
delivery of some novel entry fails after the earlier ones succeeded, the run aborts:
the earlier entries were posted, the failing one was attempted, the remaining ones
were not, and the cache is never written (at-least-once delivery). -/
theorem claim_C4 (current : Str) (cached : Option Str) (cfg : SlackConfig)
    (apiOk : Entry → Bool) :
    ((∀ e ∈ findNewEntries current cached, (postToSlack cfg apiOk e).isError = false) →
        (mainRun current cached cfg apiOk).cacheSaved = some current)
    ∧ (∀ (pre : List Entry) (fail : Entry) (post : List Entry),
        (findNewEntries current cached).reverse = pre ++ fail :: post →
        (∀ e ∈ pre, (postToSlack cfg apiOk e).isError = false) →
        (postToSlack cfg apiOk fail).isError = true →
        (mainRun current cached cfg apiOk).cacheSaved = none
        ∧ (mainRun current cached cfg apiOk).trace =
            pre.map (fun e => (e, postToSlack cfg apiOk e)) ++
              [(fail, postToSlack cfg apiOk fail)]) := by
  constructor
  · intro h
    have h' : ∀ e ∈ (findNewEntries current cached).reverse,
        (postToSlack cfg apiOk e).isError = false := by
      intro e he
      exact h e (List.mem_reverse.mp he)
    simp [mainRun, runDeliveries_all_ok cfg apiOk _ h']
  · intro pre fail post heq hpre hfail
    have hrun := runDeliveries_abort cfg apiOk pre fail post hpre hfail
    constructor
    · simp [mainRun, heq, hrun]
    · simp [mainRun, heq, hrun]

def apiOkC4 : Entry → Bool := fun e => e.version == "1.0.0".data

def entry100 : Entry := { version := "1.0.0".data, content := "## 1.0.0\n- b".data }

def entry110 : Entry := { version := "1.1.0".data, content := "## 1.1.0\n- a".data }

theorem claim_C4_witness :
    (mainRun ("## 1.1.0\n- a\n## 1.0.0\n- b".data) (some ("## 0.9.0\n- c".data))
        ⟨true, true⟩ apiOkC4).cacheSaved = none
    ∧ (mainRun ("## 1.1.0\n- a\n## 1.0.0\n- b".data) (some ("## 0.9.0\n- c".data))
        ⟨true, true⟩ apiOkC4).trace =
      [entry100].map (fun e => (e, postToSlack ⟨true, true⟩ apiOkC4 e)) ++
        [(entry110, postToSlack ⟨true, true⟩ apiOkC4 entry110)] :=
  (claim_C4 ("## 1.1.0\n- a\n## 1.0.0\n- b".data) (some ("## 0.9.0\n- c".data))
      ⟨true, true⟩ apiOkC4).2
    [entry100] entry110 [] (by decide) (by decide) (by decide)

/-- Claim C8: with credentials configured and every post succeeding, the orchestrator
posts exactly the novel entries in reversed (oldest-first) order, each one delivered
as its own freshly formatted block payload, and then saves the cache. -/
theorem claim_C8 (current : Str) (cached : Option Str) (cfg : SlackConfig)
    (apiOk : Entry → Bool)
    (hM : 1 ≤ (findNewEntries current cached).length)
    (htok : cfg.hasToken = true) (hch : cfg.hasChannel = true)
    (hok : ∀ e, apiOk e = true) :
    (mainRun current cached cfg apiOk).trace =
      (findNewEntries current cached).reverse.map
        (fun e => (e, PostOutcome.posted (formatSlackBlocks e)))
    ∧ (mainRun current cached cfg apiOk).cacheSaved = some current := by
  have hpost : ∀ e, postToSlack cfg apiOk e = PostOutcome.posted (formatSlackBlocks e) := by
    intro e
    simp [postToSlack, htok, hch, hok e]
  have hall : ∀ e ∈ (findNewEntries current cached).reverse,
      (postToSlack cfg apiOk e).isError = false := by
    intro e he
    rw [hpost e]
    rfl
  have hrun := runDeliveries_all_ok cfg apiOk ((findNewEntries current cached).reverse) hall
  have hfun : (fun e => (e, postToSlack cfg apiOk e)) =
      (fun e => (e, PostOutcome.posted (formatSlackBlocks e))) :=
    funext (fun e => by rw [hpost e])
  constructor
  · simp [mainRun, hrun, hfun]
  · simp [mainRun, hrun]

theorem claim_C8_witness :
    1 ≤ (findNewEntries ("## 1.1.0\n- a\n## 1.0.0\n- b".data)
          (some ("## 1.0.0\n- b".data))).length
    ∧ (mainRun ("## 1.1.0\n- a\n## 1.0.0\n- b".data) (some ("## 1.0.0\n- b".data))
          ⟨true, true⟩ (fun _ => true)).trace =
        (findNewEntries ("## 1.1.0\n- a\n## 1.0.0\n- b".data)
            (some ("## 1.0.0\n- b".data))).reverse.map
          (fun e => (e, PostOutcome.posted (formatSlackBlocks e))) :=
  ⟨by decide,
   (claim_C8 ("## 1.1.0\n- a\n## 1.0.0\n- b".data) (some ("## 1.0.0\n- b".data))
      ⟨true, true⟩ (fun _ => true) (by decide) rfl rfl (fun _ => rfl)).1⟩

/-! ### Claim C2 - shape of `parseChangelogEntries` output -/

theorem digit_not_jsWs (c : Char) (h : c.isDigit = true) : isJsWs c = false := by
  cases hb : isJsWs c
  · rfl
  · exfalso
    have hmem : c ∈ jsWsChars := by
      simpa [isJsWs, List.contains, List.elem_iff] using hb
    simp only [jsWsChars, List.mem_cons, List.not_mem_nil, or_false] at hmem
    rcases hmem with rfl | rfl | rfl | rfl | rfl | rfl | rfl | rfl | rfl | rfl | rfl | rfl |
      rfl | rfl | rfl | rfl | rfl | rfl | rfl | rfl | rfl | rfl | rfl | rfl | rfl <;>
      exact absurd h (by decide)

theorem digit_not_lineTerm (c : Char) (h : c.isDigit = true) : isLineTerm c = false := by
  have h1 : c ≠ Char.ofNat 10 ∧ c ≠ Char.ofNat 13 ∧ c ≠ Char.ofNat 0x2028 ∧
      c ≠ Char.ofNat 0x2029 := by
    refine ⟨?_, ?_, ?_, ?_⟩ <;> rintro rfl <;> exact absurd h (by decide)
  simp [isLineTerm, h1.1, h1.2.1, h1.2.2.1, h1.2.2.2]

theorem matchTriple_head (t v : Str) (h : matchTriple t = some v) :
    ∃ d t', t = d :: t' ∧ d.isDigit = true := by
  cases t with
  | nil => simp [matchTriple, takeDigits] at h
  | cons c cs =>
    by_cases hd : c.isDigit
    · exact ⟨c, cs, rfl, hd⟩
    · simp [matchTriple, takeDigits, hd] at h

/-- Inversion for a successful heading match: the input starts with `## `, and the
fourth character (a `[` or the version's first digit) is neither JS whitespace nor a
line terminator. -/
theorem matchHeadingAt_shape (s v : Str) (h : matchHeadingAt s = some v) :
    ∃ c4 t, s = '#' :: '#' :: ' ' :: c4 :: t
      ∧ isJsWs c4 = false ∧ isLineTerm c4 = false := by
  rw [matchHeadingAt.eq_def] at h
  split at h
  · rename_i rest
    split at h
    · simp at h
    · rename_i c rest2
      split at h
      · rename_i hc
        subst hc
        exact ⟨'[', rest2, rfl, by decide, by decide⟩
      · obtain ⟨d, t', ht, hd⟩ := matchTriple_head _ _ h
        rw [ht]
        exact ⟨d, t', rfl, digit_not_jsWs d hd, digit_not_lineTerm d hd⟩
  · simp at h

/-- Every recorded match of the scan lies at a line start: its index is an offset
`k` into the scanned suffix at which the heading pattern matches, with `k = 0` only
when the scan was at a line start, and the character before offset `k` a line
terminator otherwise. -/
theorem scanAux_mem (s : Str) : ∀ (i : Nat) (b : Bool) (p : Str × Nat), p ∈ scanAux s i b →
    ∃ k, p.2 = i + k ∧ k < s.length ∧ matchHeadingAt (s.drop k) = some p.1
      ∧ (k = 0 → b = true)
      ∧ (0 < k → ∃ lt, isLineTerm lt = true ∧ s.drop (k - 1) = lt :: s.drop k) := by
  induction s with
  | nil =>
    intro i b p hp
    simp [scanAux] at hp
  | cons c cs ih =>
    intro i b p hp
    rw [scanAux] at hp
    split at hp
    · rename_i v heq
      have hb : b = true := by
        by_cases hbb : b
        · exact hbb
        · simp [hbb] at heq
      subst hb
      simp only [if_true] at heq
      rcases List.mem_cons.mp hp with hpe | hpm
      · subst hpe
        refine ⟨0, by simp, by simp, by simpa using heq, fun _ => rfl,
          fun h0 => absurd h0 (by omega)⟩
      · obtain ⟨k', hk1, hk2, hk3, hk4, hk5⟩ := ih (i + 1) (isLineTerm c) p hpm
        refine ⟨k' + 1, by omega, by simp; omega, by simpa [List.drop_succ_cons] using hk3,
          by omega, ?_⟩
        intro _
        rcases Nat.eq_zero_or_pos k' with hz | hpos
        · subst hz
          exact ⟨c, hk4 rfl, by simp [List.drop_succ_cons]⟩
        · obtain ⟨lt, hlt, hdrop⟩ := hk5 hpos
          refine ⟨lt, hlt, ?_⟩
          have h9 : (c :: cs).drop (k' + 1 - 1) = cs.drop (k' - 1) := by
            have h8 : k' + 1 - 1 = (k' - 1) + 1 := by omega
            rw [h8, List.drop_succ_cons]
          rw [h9, hdrop, List.drop_succ_cons]
    · rename_i heq
      obtain ⟨k', hk1, hk2, hk3, hk4, hk5⟩ := ih (i + 1) (isLineTerm c) p hp
      refine ⟨k' + 1, by omega, by simp; omega, by simpa [List.drop_succ_cons] using hk3,
        by omega, ?_⟩
      intro _
      rcases Nat.eq_zero_or_pos k' with hz | hpos
      · subst hz
        exact ⟨c, hk4 rfl, by simp [List.drop_succ_cons]⟩
      · obtain ⟨lt, hlt, hdrop⟩ := hk5 hpos
        refine ⟨lt, hlt, ?_⟩
        have h9 : (c :: cs).drop (k' + 1 - 1) = cs.drop (k' - 1) := by
          have h8 : k' + 1 - 1 = (k' - 1) + 1 := by omega
          rw [h8, List.drop_succ_cons]
        rw [h9, hdrop, List.drop_succ_cons]

/-- Consecutive matches of the scan are at least 4 positions apart: a line start can
only follow a line terminator, and none of the first four characters of a matched
heading (`#`, `#`, a space, then `[` or a digit) is one. -/
theorem scanAux_chain (s : Str) : ∀ (i : Nat) (b : Bool),
    List.Chain' (fun p q : Str × Nat => p.2 + 4 ≤ q.2) (scanAux s i b) := by
  induction s with
  | nil =>
    intro i b
    simp [scanAux]
  | cons c cs ih =>
    intro i b
    rw [scanAux]
    split
    · rename_i v heq
      rw [List.chain'_cons']
      refine ⟨?_, ih (i + 1) (isLineTerm c)⟩
      intro q hq
      have hqm : q ∈ scanAux cs (i + 1) (isLineTerm c) := List.mem_of_mem_head? hq
      obtain ⟨k', hk1, hk2, hk3, hk4, hk5⟩ := scanAux_mem cs (i + 1) (isLineTerm c) q hqm
      have hmatch : matchHeadingAt (c :: cs) = some v := by
        by_cases hbb : b
        · simpa [hbb] using heq
        · simp [hbb] at heq
      obtain ⟨c4, t, hshape, hw4, hl4⟩ := matchHeadingAt_shape _ _ hmatch
      have hc : c = '#' := by injection hshape
      have hcs : cs = '#' :: ' ' :: c4 :: t := by
        injection hshape with _ h2
      have hk0 : k' ≠ 0 := by
        intro h0
        have hcl := hk4 h0
        rw [hc] at hcl
        exact absurd hcl (by decide)
      obtain ⟨lt, hlt, hdrop⟩ := hk5 (Nat.pos_of_ne_zero hk0)
      have hk4' : 4 ≤ k' := by
        rcases k' with _ | _ | _ | _ | k4
        · exact absurd rfl hk0
        · rw [hcs] at hdrop
          simp only [List.drop] at hdrop
          have : lt = '#' := by
            have := hdrop.symm
            injection this
          rw [this] at hlt
          exact absurd hlt (by decide)
        · rw [hcs] at hdrop
          simp only [List.drop] at hdrop
          have : lt = ' ' := by
            have := hdrop.symm
            injection this
          rw [this] at hlt
          exact absurd hlt (by decide)
        · rw [hcs] at hdrop
          simp only [List.drop] at hdrop
          have : lt = c4 := by
            have := hdrop.symm
            injection this
          rw [this] at hlt
          rw [hlt] at hl4
          exact absurd hl4 (by decide)
        · omega
      omega
    · exact ih (i + 1) (isLineTerm c)

/-- Trimming a slice that starts `## x...` (with `x` not whitespace) keeps the
entire `## x` prefix: leading `dropWhile` stops at `#` immediately, and the
trailing trim cannot reach past the non-whitespace fourth character. -/
theorem jsTrim_hash (c4 : Char) (u : Str) (h4 : isJsWs c4 = false) :
    jsTrim ('#' :: '#' :: ' ' :: c4 :: u) = '#' :: '#' :: ' ' :: c4 :: rtrim u := by
  have hfront : List.dropWhile isJsWs ('#' :: '#' :: ' ' :: c4 :: u) =
      '#' :: '#' :: ' ' :: c4 :: u := by
    rw [List.dropWhile_cons, if_neg (by decide)]
  rw [jsTrim, hfront, rtrim]
  have hrev : ('#' :: '#' :: ' ' :: c4 :: u).reverse = u.reverse ++ [c4, ' ', '#', '#'] := by
    simp
  rw [hrev, List.dropWhile_append]
  have h2 : List.dropWhile isJsWs [c4, ' ', '#', '#'] = [c4, ' ', '#', '#'] := by
    rw [List.dropWhile_cons, if_neg (by simp [h4])]
  by_cases hemp : (List.dropWhile isJsWs u.reverse).isEmpty
  · rw [if_pos hemp, h2]
    have hru : rtrim u = [] := by
      rw [rtrim]
      rw [List.isEmpty_iff] at hemp
      rw [hemp]
      rfl
    rw [hru]
    rfl
  · rw [if_neg hemp]
    simp [rtrim]

/-- The head slice of `sliceEntries` at a matched heading position: non-empty and
starting with `## `, provided the slice is at least 4 characters wide. -/
theorem slice_head_ok (content : Str) (v : Str) (i stop : Nat)
    (hm : matchHeadingAt (content.drop i) = some v)
    (hstop : 4 ≤ stop - i) :
    jsTrim ((content.drop i).take (stop - i)) ≠ []
    ∧ strStartsWith (jsTrim ((content.drop i).take (stop - i))) ("## ".data) = true := by
  obtain ⟨c4, t, hshape, hw4, hl4⟩ := matchHeadingAt_shape _ _ hm
  obtain ⟨n, hn⟩ : ∃ n, stop - i = n + 4 := ⟨stop - i - 4, by omega⟩
  rw [hshape, hn]
  have htake : List.take (n + 4) ('#' :: '#' :: ' ' :: c4 :: t) =
      '#' :: '#' :: ' ' :: c4 :: List.take n t := by
    simp [List.take_succ_cons]
  rw [htake, jsTrim_hash c4 _ hw4]
  refine ⟨by simp, ?_⟩
  have hdata : ("## ".data : Str) = ['#', '#', ' '] := rfl
  rw [hdata]
  simp [strStartsWith]

theorem sliceEntries_spec (content : Str) :
    ∀ (l : List (Str × Nat)),
      (∀ p ∈ l, matchHeadingAt (content.drop p.2) = some p.1) →
      List.Chain' (fun p q : Str × Nat => p.2 + 4 ≤ q.2) l →
      ∀ e ∈ sliceEntries content l,
        e.content ≠ [] ∧ strStartsWith e.content ("## ".data) = true := by
  intro l
  induction l with
  | nil =>
    intro _ _ e he
    simp [sliceEntries] at he
  | cons p rest ih =>
    intro hmatch hchain e he
    obtain ⟨v, i⟩ := p
    have hm : matchHeadingAt (content.drop i) = some v := hmatch (v, i) (by simp)
    have htail : ∀ q ∈ rest, matchHeadingAt (content.drop q.2) = some q.1 :=
      fun q hq => hmatch q (by simp [hq])
    rcases rest with _ | ⟨⟨v', j⟩, rest'⟩
    · rw [sliceEntries] at he
      rcases List.mem_cons.mp he with he1 | hem
      · subst he1
        have hlen : (content.drop i).length = content.length - i := List.length_drop _ _
        obtain ⟨c4, t, hshape, _, _⟩ := matchHeadingAt_shape _ _ hm
        have h4 : 4 ≤ content.length - i := by
          rw [← hlen, hshape]
          simp only [List.length_cons]
          omega
        exact slice_head_ok content v i content.length hm h4
      · simp [sliceEntries] at hem
    · rw [sliceEntries] at he
      rcases List.mem_cons.mp he with he1 | hem
      · subst he1
        have hrel : i + 4 ≤ j :=
          (List.chain'_cons'.mp hchain).1 (v', j) (by simp)
        exact slice_head_ok content v i j hm (by omega)
      · exact ih htail (List.chain'_cons'.mp hchain).2 e hem

theorem sliceEntries_length (content : Str) (l : List (Str × Nat)) :
    (sliceEntries content l).length = l.length := by
  induction l with
  | nil => rfl
  | cons p rest ih =>
    obtain ⟨v, i⟩ := p
    simp [sliceEntries, ih]

theorem sliceEntries_versions (content : Str) (l : List (Str × Nat)) :
    (sliceEntries content l).map (fun e => e.version) = l.map (fun p => p.1) := by
  induction l with
  | nil => rfl
  | cons p rest ih =>
    obtain ⟨v, i⟩ := p
    simp [sliceEntries, ih]

/-- Claim C2: `parseChangelogEntries` returns exactly one entry per properly-formed
version heading (one per recorded regex match), in document order (the entry
versions are the match captures in match order), each entry body non-empty and
starting at its heading (`## ` prefix survives the trim); a document with zero
matches yields the empty sequence rather than an error. -/
theorem claim_C2 (d : Str) :
    (parseChangelogEntries d).length = (findMatches d).length
    ∧ (parseChangelogEntries d).map (fun e => e.version) = (findMatches d).map (fun p => p.1)
    ∧ (∀ e ∈ parseChangelogEntries d,
        e.content ≠ [] ∧ strStartsWith e.content ("## ".data) = true)
    ∧ (findMatches d = [] → parseChangelogEntries d = []) := by
  have hmatch : ∀ p ∈ findMatches d, matchHeadingAt (d.drop p.2) = some p.1 := by
    intro p hp
    obtain ⟨k, hk1, _, hk3, _, _⟩ := scanAux_mem d 0 true p hp
    rw [hk1]
    simpa using hk3
  refine ⟨sliceEntries_length d (findMatches d), sliceEntries_versions d (findMatches d),
    sliceEntries_spec d (findMatches d) hmatch (scanAux_chain d 0 true), ?_⟩
  intro h0
  rw [parseChangelogEntries, h0]
  rfl

theorem claim_C2_witness :
    findMatches ("plain text, no headings".data) = []
    ∧ parseChangelogEntries ("plain text, no headings".data) = [] :=
  ⟨by decide, (claim_C2 ("plain text, no headings".data)).2.2.2 (by decide)⟩

/-! ### Claim C10 - prefix-lax heading recognition -/

theorem takeDigits_append (a t : Str) (ha : ∀ ch ∈ a, ch.isDigit = true) :
    takeDigits (a ++ t) = (a ++ (takeDigits t).1, (takeDigits t).2) := by
  induction a with
  | nil => simp
  | cons c a' ih =>
    have hc := ha c (by simp)
    have ihr := ih (fun ch h => ha ch (by simp [h]))
    simp [takeDigits, hc, ihr]

theorem takeDigits_nondigit (t : Str) (h : ∀ c ∈ t.take 1, c.isDigit = false) :
    takeDigits t = ([], t) := by
  cases t with
  | nil => rfl
  | cons c cs =>
    have hc := h c (by simp)
    simp [takeDigits, hc]

/-- The captured triple is exactly the three maximal digit runs `a.b.c`, whatever
text follows, as long as that text does not begin with a digit (which would extend
the third run). -/
theorem matchTriple_exact (a b c rest : Str)
    (ha : a ≠ []) (had : ∀ ch ∈ a, ch.isDigit = true)
    (hb : b ≠ []) (hbd : ∀ ch ∈ b, ch.isDigit = true)
    (hc : c ≠ []) (hcd : ∀ ch ∈ c, ch.isDigit = true)
    (hrest : ∀ ch ∈ rest.take 1, ch.isDigit = false) :
    matchTriple (a ++ '.' :: (b ++ '.' :: (c ++ rest)))
      = some (a ++ '.' :: (b ++ '.' :: c)) := by
  have h1 : takeDigits (a ++ '.' :: (b ++ '.' :: (c ++ rest)))
      = (a, '.' :: (b ++ '.' :: (c ++ rest))) := by
    rw [takeDigits_append _ _ had,
      takeDigits_nondigit ('.' :: (b ++ '.' :: (c ++ rest))) (by intro ch hm; simp at hm; simp [hm])]
    simp
  have h2 : takeDigits (b ++ '.' :: (c ++ rest)) = (b, '.' :: (c ++ rest)) := by
    rw [takeDigits_append _ _ hbd,
      takeDigits_nondigit ('.' :: (c ++ rest)) (by intro ch hm; simp at hm; simp [hm])]
    simp
  have h3 : takeDigits (c ++ rest) = (c, (takeDigits rest).2) := by
    rw [takeDigits_append _ _ hcd, takeDigits_nondigit rest hrest]
    simp
  simp [matchTriple, h1, h2, h3, ha, hb, hc]

/-- Claim C10: heading recognition is prefix-lax.  A line beginning `## ` (with or
without an opening `[`) followed by a dotted digit triple `a.b.c` is accepted with
captured version exactly `a.b.c`, no matter what trailing text follows (a `-beta`
suffix, a date, a missing closing bracket, ...), as long as the trailing text does
not start with a digit (which would be absorbed into the third run). -/
theorem claim_C10 (a b c rest : Str)
    (ha : a ≠ []) (had : ∀ ch ∈ a, ch.isDigit = true)
    (hb : b ≠ []) (hbd : ∀ ch ∈ b, ch.isDigit = true)
    (hc : c ≠ []) (hcd : ∀ ch ∈ c, ch.isDigit = true)
    (hrest : ∀ ch ∈ rest.take 1, ch.isDigit = false) :
    matchHeadingAt ("## ".data ++ (a ++ '.' :: (b ++ '.' :: (c ++ rest))))
      = some (a ++ '.' :: (b ++ '.' :: c))
    ∧ matchHeadingAt ("## [".data ++ (a ++ '.' :: (b ++ '.' :: (c ++ rest))))
      = some (a ++ '.' :: (b ++ '.' :: c)) := by
  have hm := matchTriple_exact a b c rest ha had hb hbd hc hcd hrest
  obtain ⟨a0, a', ha0⟩ : ∃ a0 a', a = a0 :: a' := by
    cases a with
    | nil => exact absurd rfl ha
    | cons x xs => exact ⟨x, xs, rfl⟩
  have ha0d : a0.isDigit = true := by
    subst ha0
    exact had a0 (by simp)
  have hne : a0 ≠ '[' := by
    intro he
    rw [he] at ha0d
    exact absurd ha0d (by decide)
  constructor
  · show matchHeadingAt ('#' :: '#' :: ' ' :: (a ++ '.' :: (b ++ '.' :: (c ++ rest)))) = _
    subst ha0
    rw [List.cons_append]
    rw [matchHeadingAt]
    rw [if_neg hne]
    rw [← List.cons_append]
    exact hm
  · show matchHeadingAt ('#' :: '#' :: ' ' :: '[' :: (a ++ '.' :: (b ++ '.' :: (c ++ rest)))) = _
    rw [matchHeadingAt]
    rw [if_pos rfl]
    exact hm

theorem claim_C10_witness :
    (∀ ch ∈ ("-beta".data : Str).take 1, ch.isDigit = false)
    ∧ matchHeadingAt ("## ".data ++ (['1'] ++ '.' :: (['2'] ++ '.' :: (['3'] ++ "-beta".data))))
        = some (['1'] ++ '.' :: (['2'] ++ '.' :: ['3']))
    ∧ matchHeadingAt ("## [".data ++ (['1'] ++ '.' :: (['2'] ++ '.' :: (['3'] ++ "-beta".data))))
        = some (['1'] ++ '.' :: (['2'] ++ '.' :: ['3'])) :=
  ⟨by decide,
   (claim_C10 ['1'] ['2'] ['3'] ("-beta".data) (by decide) (by decide) (by decide)
     (by decide) (by decide) (by decide) (by decide)).1,
   (claim_C10 ['1'] ['2'] ['3'] ("-beta".data) (by decide) (by decide) (by decide)
     (by decide) (by decide) (by decide) (by decide)).2⟩
